import Mathlib

/-!
Verification development for the delivery-layer core of the `vector` telemetry
pipeline: endpoint normalization (`src/endpoint.rs`), the statsd line-protocol
encoder (`src/sinks/statsd.rs`), and the UDP transport state machine
(`src/sinks/util/udp.rs`).  Rust code is shallowly embedded: pure functions
become Lean functions, the stateful poll loop becomes a step function on an
explicit state record driven by oracle streams for the external DNS / timer
futures, and fallible constructors return `Except`.
-/

namespace VectorSpec

/-! ## Endpoint (`src/endpoint.rs`)

The `http::Uri` type from the `http` crate is embedded as a record of its three
components.  `PathAndQuery` stores the raw path string plus the optional query
string; `pathFn` reproduces `PathAndQuery::path()`, which presents an empty
path as "/". Byte-level character validation done by the `http` crate parser
is not modelled; the claims under analysis quantify over already-parsed URIs.
-/

structure PathAndQuery where
  path : String
  query : Option String
deriving DecidableEq, Repr

/-- Models `http::uri::PathAndQuery::path()`: an empty stored path reads back as "/". -/
def PathAndQuery.pathFn (pq : PathAndQuery) : String :=
  if pq.path = ("") then ("/") else pq.path

/-- Splits a raw path-and-query string at the first question mark, the way the
`http` crate separates the path from the query. -/
def splitAtQuery : List Char → List Char × Option (List Char)
  | [] => ([], none)
  | c :: cs =>
    if c = '?' then ([], some cs)
    else
      let (p, q) := splitAtQuery cs
      (c :: p, q)

/-- Models `PathAndQuery::from_maybe_shared`: parse a raw string into path and
optional query (character-set validation omitted). -/
def PathAndQuery.from_maybe_shared (s : String) : PathAndQuery :=
  let pq := splitAtQuery s.data
  { path := String.mk pq.1, query := pq.2.map String.mk }

structure Uri where
  scheme : Option String
  authority : Option String
  path_and_query : Option PathAndQuery
deriving DecidableEq, Repr

/-- Models `http::Uri::query()`. -/
def Uri.queryOf (u : Uri) : Option String :=
  u.path_and_query.bind (fun pq => pq.query)

/-- Used when Endpoint has no scheme (`static DEFAULT_SCHEME: Scheme = Scheme::HTTPS`). -/
def DEFAULT_SCHEME : String := "https"

inductive EndpointError where
  | MissingAuthority (uri : Uri)
  | HasQuery (uri : Uri)
  | Invalid
deriving DecidableEq, Repr

structure Endpoint where
  uri : Uri
deriving DecidableEq, Repr

/-- Embedding of `Endpoint::new` from `src/endpoint.rs`: authority mandatory,
query forbidden, missing scheme silently replaced by the default (https) while
an empty path-and-query component is attached if absent.  The `debug!` log
statements carry no state and are not modelled. -/
def Endpoint.new (uri : Uri) : Except EndpointError Endpoint :=
  if uri.authority.isNone then
    .error (.MissingAuthority uri)
  else if (Uri.queryOf uri).isSome then
    .error (.HasQuery uri)
  else if uri.scheme.isNone then
    .ok { uri := { uri with
                   scheme := some DEFAULT_SCHEME,
                   path_and_query := some (uri.path_and_query.getD { path := "", query := none }) } }
  else
    .ok { uri := uri }

/-- Models Rust `str::trim_start_matches('/')`. -/
def trimStartSlash : List Char → List Char
  | [] => []
  | c :: cs => if c = '/' then trimStartSlash cs else c :: cs

/-- Models Rust `str::trim_end_matches('/')`. -/
def trimEndSlash (l : List Char) : List Char :=
  (trimStartSlash l.reverse).reverse

def trimStartSlashS (s : String) : String := String.mk (trimStartSlash s.data)

def trimEndSlashS (s : String) : String := String.mk (trimEndSlash s.data)

/-- Embedding of the private `Endpoint::build` from `src/endpoint.rs`: start
from "/", append the base path stripped of leading and trailing slashes
followed by "/" when the endpoint has a path-and-query component, then append
the caller's path stripped of leading slashes.  The `Result` mirrors the Rust
signature; with character validation unmodelled the parse always succeeds. -/
def Endpoint.build (e : Endpoint) (path_and_query : String) : Except Unit Uri :=
  let parts := e.uri
  let s := ("/")
  let s :=
    match parts.path_and_query with
    | some pq => s ++ trimEndSlashS (trimStartSlashS (PathAndQuery.pathFn pq)) ++ ("/")
    | none => s
  let s := s ++ trimStartSlashS path_and_query
  .ok { parts with path_and_query := some (PathAndQuery.from_maybe_shared s) }

/-! ## Statsd line-protocol encoder (`src/sinks/statsd.rs`)

The metric event types live in `src/event/metric.rs`, which is not part of the
provided sources; they are modelled from the spec.  Rust `f64` values are
modelled as rationals, with `fmtF64` reproducing Rust's `Display` output for
values whose decimal expansion terminates (all values exercised by the
theorems below); `BTreeMap<String, String>` tags are modelled as an
association list presented in the map's ascending-key iteration order, and
`BTreeSet<String>` as a list in ascending iteration order.
-/

/-- Modelled from the spec: statistic selector of a Distribution metric
(`StatisticKind` of `src/event/metric.rs`, absent from the sources). -/
inductive StatisticKind where
  | Histogram
  | Summary
deriving DecidableEq, Repr

/-- Modelled from the spec: Incremental (delta) versus Absolute (snapshot)
metric kind (`MetricKind` of `src/event/metric.rs`, absent from the sources). -/
inductive MetricKind where
  | Incremental
  | Absolute
deriving DecidableEq, Repr

/-- Modelled from the spec: the metric value shapes listed in spec section 3
(`MetricValue` of `src/event/metric.rs`, absent from the sources). -/
inductive MetricValue where
  | Counter (value : Rat)
  | Gauge (value : Rat)
  | Distribution (values : List Rat) (sample_rates : List Nat) (statistic : StatisticKind)
  | Set (values : List String)
deriving DecidableEq, Repr

/-- Modelled from the spec: a metric event (`Metric` of `src/event/metric.rs`,
absent from the sources).  The timestamp field plays no role in encoding and
is omitted. -/
structure Metric where
  name : String
  tags : Option (List (String × String))
  kind : MetricKind
  value : MetricValue
deriving DecidableEq, Repr

/-- Modelled from the spec: the pipeline event wrapper; the encoder only uses
its metric payload (`event.as_metric()`). -/
inductive Event where
  | Metric (metric : Metric)
deriving DecidableEq, Repr

def Event.as_metric (e : Event) : VectorSpec.Metric :=
  match e with
  | .Metric m => m

/-- Fractional decimal digits of `r / den` produced by long division, with
fuel bounding the number of digits. -/
def fracDigits : Nat → Nat → Nat → List Char
  | 0, _, _ => []
  | fuel + 1, den, r =>
    if r = 0 then []
    else Nat.digitChar (r * 10 / den) :: fracDigits fuel den (r * 10 % den)

/-- Decimal rendering of a nonnegative rational. -/
def fmtF64Abs (q : Rat) : String :=
  let n := q.num.natAbs
  let den := q.den
  if n % den = 0 then toString (n / den)
  else toString (n / den) ++ (".") ++ String.mk (fracDigits 40 den (n % den))

/-- Models Rust `format!("{}", value)` on an `f64`, with the value modelled as
a rational: exact for values whose decimal expansion terminates. -/
def fmtF64 (q : Rat) : String :=
  if q < 0 then ("-") ++ fmtF64Abs q else fmtF64Abs q

/-- Models Rust `format!("{:+}", value)` (sign always shown) on an `f64`. -/
def fmtF64Plus (q : Rat) : String :=
  if q < 0 then ("-") ++ fmtF64Abs q else ("+") ++ fmtF64Abs q

/-- Models `format!("{}", 1.0 / f64::from(sample_rate))`: under IEEE-754
semantics the division by zero yields positive infinity, which Rust displays
as "inf"; otherwise the reciprocal is displayed as a decimal. -/
def rateString (sample_rate : Nat) : String :=
  if sample_rate = 0 then ("inf") else fmtF64 (1 / (sample_rate : Rat))

/-- Embedding of `push_tag` from `src/sinks/statsd.rs`. -/
def push_tag (result : String) (name value : String) : String :=
  let result := result ++ name
  if value ≠ ("true") then result ++ (":") ++ value else result

/-- Embedding of `encode_tags` from `src/sinks/statsd.rs`: first entry pushed
bare, each following entry preceded by a comma (the `String::with_capacity`
pre-sizing has no observable effect and is dropped). -/
def encode_tags (tags : List (String × String)) : String :=
  match tags with
  | [] => ""
  | (name, value) :: rest =>
    rest.foldl (fun acc p => push_tag (acc ++ (",")) p.1 p.2) (push_tag ("") name value)

/-- The segments contributed by one (value, sample_rate) pair of a
Distribution metric: the body of the `for (val, sample_rate)` loop of
`encode_event`. -/
def distribution_segments (name : String) (metric_type : String)
    (tags : Option (List (String × String))) (p : Rat × Nat) : List String :=
  let buf := [name ++ (":") ++ fmtF64 p.1]
  let buf := buf ++ [metric_type]
  let buf := if p.2 ≠ 1 then buf ++ [("@") ++ rateString p.2] else buf
  match tags with
  | some t => buf ++ [("#") ++ encode_tags t]
  | none => buf

/-- The segments contributed by one element of a Set metric: the body of the
`for val in values` loop of `encode_event`. -/
def set_segments (name : String) (tags : Option (List (String × String)))
    (val : String) : List String :=
  let buf := [name ++ (":") ++ val]
  let buf := buf ++ ["s"]
  match tags with
  | some t => buf ++ [("#") ++ encode_tags t]
  | none => buf

/-- The `buf` vector of segments accumulated by `encode_event` for one metric,
before the segments are joined with "|". -/
def encode_metric_buf (metric : Metric) : List String :=
  match metric.kind with
  | .Incremental =>
    match metric.value with
    | .Counter value =>
      let buf := [metric.name ++ (":") ++ fmtF64 value]
      let buf := buf ++ ["c"]
      match metric.tags with
      | some t => buf ++ [("#") ++ encode_tags t]
      | none => buf
    | .Gauge value =>
      let buf := [metric.name ++ (":") ++ fmtF64Plus value]
      let buf := buf ++ ["g"]
      match metric.tags with
      | some t => buf ++ [("#") ++ encode_tags t]
      | none => buf
    | .Distribution values sample_rates statistic =>
      let metric_type :=
        match statistic with
        | .Histogram => ("h")
        | .Summary => ("d")
      (values.zip sample_rates).flatMap (distribution_segments metric.name metric_type metric.tags)
    | .Set values =>
      values.flatMap (set_segments metric.name metric.tags)
  | .Absolute =>
    match metric.value with
    | .Gauge value =>
      let buf := [metric.name ++ (":") ++ fmtF64 value]
      let buf := buf ++ ["g"]
      match metric.tags with
      | some t => buf ++ [("#") ++ encode_tags t]
      | none => buf
    | _ => []

/-- Embedding of `encode_event` from `src/sinks/statsd.rs`: join the collected
segments with "|", prefix "namespace." when the namespace is non-empty, and
terminate with a newline.  The returned `Vec<u8>` is the UTF-8 encoding of the
string produced here.  The Rust parameter is called `namespace`, a reserved
word in Lean, hence `nspace`. -/
def encode_event (event : Event) (nspace : String) : String :=
  let metric := event.as_metric
  let buf := encode_metric_buf metric
  let message := String.intercalate ("|") buf
  let message := if nspace.isEmpty then message else nspace ++ (".") ++ message
  message ++ ("\n")

/-! ## UDP transport state machine (`src/sinks/util/udp.rs`)

The sink owns a four-state connection state machine.  External effects are
embedded as follows: the DNS resolver future and the backoff delay future are
driven by oracle streams (`PollEnv`), one entry consumed per `poll()` of the
corresponding future; the UDP socket send result is a boolean oracle; log and
internal-event emissions are collected into a list of `Obs` values.  The
`tracing` span, the resolver handle and the socket handle carry no
state-machine-relevant data and are dropped from the record.  Addresses
returned by the resolver are modelled abstractly as naturals.
-/

abbrev IpAddr := Nat

structure SocketAddr where
  ip : IpAddr
  port : Nat
deriving DecidableEq, Repr

/-- Modelled from the spec: the `tokio_retry::strategy::ExponentialBackoff`
iterator driving the backoff delays, per spec section 4.4: delays grow
exponentially (the current position is multiplied by the base at each draw),
each drawn delay is the current position times a constant factor, capped at a
hard maximum; the iterator never ends (`next` never returns `none`).
Durations are in milliseconds; u64 multiplication saturates at `U64MAX`. -/
structure ExponentialBackoff where
  current : Nat
  base : Nat
  factor : Nat
  max_delay : Option Nat
deriving DecidableEq, Repr

def U64MAX : Nat := 2 ^ 64 - 1

/-- One draw of the backoff iterator: emitted delay is `current * factor`
capped at `max_delay` (when capped the position does not advance), otherwise
the position advances to `current * base`. -/
def ExponentialBackoff.next (b : ExponentialBackoff) : Option (Nat × ExponentialBackoff) :=
  let duration := if b.current * b.factor ≤ U64MAX then b.current * b.factor else U64MAX
  match b.max_delay with
  | some md =>
    if md < duration then some (md, b)
    else some (duration, { b with current := if b.current * b.base ≤ U64MAX then b.current * b.base else U64MAX })
  | none =>
    some (duration, { b with current := if b.current * b.base ≤ U64MAX then b.current * b.base else U64MAX })

/-- Embedding of `UdpSink::fresh_backoff`:
`ExponentialBackoff::from_millis(2).factor(250).max_delay(Duration::from_secs(60))`. -/
def fresh_backoff : ExponentialBackoff :=
  { current := 2, base := 2, factor := 250, max_delay := some 60000 }

/-- The delay drawn by one call of `next_delay` (the `unwrap` of the iterator;
0 is returned in the impossible `none` case). -/
def emittedDelay (b : ExponentialBackoff) : Nat :=
  match b.next with
  | some p => p.1
  | none => 0

/-- The backoff iterator position after one call of `next_delay`. -/
def advanceBackoff (b : ExponentialBackoff) : ExponentialBackoff :=
  match b.next with
  | some p => p.2
  | none => b

/-- The n-th delay (0-based) drawn by a sink that keeps failing resolution. -/
def delaySeq (n : Nat) : Nat :=
  emittedDelay (advanceBackoff^[n] fresh_backoff)

/-- Embedding of the `State` enum of `src/sinks/util/udp.rs`.  The
`ResolverFuture` and boxed delay future stored in `ResolvingDns` / `Backoff`
are driven by the oracle streams and carry no modelled data. -/
inductive State where
  | Initializing
  | ResolvingDns
  | ResolvedDns (addr : SocketAddr)
  | Backoff
deriving DecidableEq, Repr

/-- Embedding of the `UdpSink` struct (resolver, span and socket handles
dropped). -/
structure UdpSink where
  host : String
  port : Nat
  state : State
  backoff : ExponentialBackoff
deriving DecidableEq, Repr

/-- Embedding of `UdpSink::new` (the socket-bind `Result` concerns the OS
socket, which is not modelled). -/
def UdpSink.new (host : String) (port : Nat) : UdpSink :=
  { host := host, port := port, state := .Initializing, backoff := fresh_backoff }

/-- One poll result of the resolver future `dns.poll()`: ready with the list
of resolved addresses, not ready, or a resolution error. -/
inductive DnsPoll where
  | ready (addrs : List IpAddr)
  | notReady
  | err
deriving DecidableEq, Repr

/-- One poll result of the boxed backoff delay future.  The future's Rust type
admits an error outcome (`Error = ()`); `errored` represents it. -/
inductive DelayPoll where
  | ready
  | notReady
  | errored
deriving DecidableEq, Repr

/-- Models the poll behaviour of the future built by `next_delay01`, namely
`async { Ok(delay.await) }`: ready once the timer has elapsed, otherwise not
ready; it never yields an error. -/
def next_delay01_poll (elapsed : Bool) : DelayPoll :=
  if elapsed then .ready else .notReady

/-- Oracle streams feeding the embedded poll loop: one `DnsPoll` entry per
poll of the current resolver future, one `DelayPoll` entry per poll of the
current delay future. -/
structure PollEnv where
  dns : List DnsPoll
  delays : List DelayPoll
deriving DecidableEq, Repr

/-- Observability side-channel emissions (`debug!` / `error!` logs and the
`emit!(UdpSendFailed ...)` internal event). -/
inductive Obs where
  | debugResolvingDns
  | debugResolvedAddress (addr : SocketAddr)
  | errorDnsNoAddresses
  | errorDnsFailure
  | debugSendingEvent (bytes : Nat)
  | udpSendFailed
deriving DecidableEq, Repr

/-- Models `futures01::Async`. -/
inductive Async (α : Type) where
  | Ready (a : α)
  | NotReady
deriving DecidableEq, Repr

/-- What one iteration of the `poll_inner` loop does next: continue looping,
return a value, hit an `unreachable!()` panic, or run out of oracle input (a
model artifact, not a behaviour of the code). -/
inductive StepRes where
  | cont
  | retReady (addr : SocketAddr)
  | retNotReady
  | panicked
  | stuck
deriving DecidableEq, Repr

/-- One iteration of the `loop` in `UdpSink::poll_inner`: the body of the
`self.state = match self.state { ... }` assignment.  Emitted logs are
returned alongside the updated sink and oracle state.  The two `none` branches
of the `backoff.next` matches are the `unwrap` in `next_delay` (a panic if the
iterator ended); the `errored` branch of the delay poll is the
`Err(_) => unreachable!()` arm. -/
def poll_step (u : UdpSink) (env : PollEnv) : UdpSink × PollEnv × List Obs × StepRes :=
  match u.state with
  | .Initializing =>
    ({ u with state := .ResolvingDns }, env, [.debugResolvingDns], .cont)
  | .ResolvingDns =>
    match env.dns with
    | [] => (u, env, [], .stuck)
    | d :: rest =>
      let env' : PollEnv := { env with dns := rest }
      match d with
      | .ready (a :: _) =>
        let addr : SocketAddr := { ip := a, port := u.port }
        ({ u with state := .ResolvedDns addr }, env', [.debugResolvedAddress addr], .cont)
      | .ready [] =>
        match u.backoff.next with
        | some p => ({ u with state := .Backoff, backoff := p.2 }, env', [.errorDnsNoAddresses], .cont)
        | none => (u, env', [.errorDnsNoAddresses], .panicked)
      | .notReady => (u, env', [], .retNotReady)
      | .err =>
        match u.backoff.next with
        | some p => ({ u with state := .Backoff, backoff := p.2 }, env', [.errorDnsFailure], .cont)
        | none => (u, env', [.errorDnsFailure], .panicked)
  | .ResolvedDns addr => (u, env, [], .retReady addr)
  | .Backoff =>
    match env.delays with
    | [] => (u, env, [], .stuck)
    | d :: rest =>
      let env' : PollEnv := { env with delays := rest }
      match d with
      | .notReady => (u, env', [], .retNotReady)
      | .ready => ({ u with state := .Initializing }, env', [], .cont)
      | .errored => (u, env', [], .panicked)

/-- Result of a full `poll_inner` call.  The Rust signature is
`Result<Async<SocketAddr>, ()>`; no branch of the source returns `Err`, so the
embedding has no error constructor — `panicked` stands for the
`unreachable!()` panics and `stuck` for oracle/fuel exhaustion (a model
artifact). -/
inductive PollOutcome where
  | ok (r : Async SocketAddr) (u : UdpSink) (env : PollEnv) (obs : List Obs)
  | panicked
  | stuck
deriving DecidableEq, Repr

/-- Embedding of `UdpSink::poll_inner`: iterate `poll_step` until it returns,
with fuel bounding the number of loop iterations. -/
def poll_inner : Nat → UdpSink → PollEnv → List Obs → PollOutcome
  | 0, _, _, _ => .stuck
  | fuel + 1, u, env, obs =>
    match poll_step u env with
    | (u', env', o, .cont) => poll_inner fuel u' env' (obs ++ o)
    | (u', env', o, .retReady a) => .ok (.Ready a) u' env' (obs ++ o)
    | (u', env', o, .retNotReady) => .ok .NotReady u' env' (obs ++ o)
    | (_, _, _, .panicked) => .panicked
    | (_, _, _, .stuck) => .stuck

/-- Models `futures01::AsyncSink`: the sink accepted the item, or hands it
back because it is not ready. -/
inductive AsyncSink (α : Type) where
  | Ready
  | NotReady (item : α)
deriving DecidableEq, Repr

abbrev Bytes := List Nat

/-- Result of a `start_send` call.  The Rust signature is
`StartSend<Bytes, ()> = Result<AsyncSink<Bytes>, ()>`; no branch returns
`Err`, so the embedding again carries `panicked` for the `unreachable!()` arm
and `stuck` for oracle/fuel exhaustion.  `sent` records every datagram handed
to `socket.send_to` together with its destination address. -/
inductive StartSendOutcome where
  | ok (r : AsyncSink Bytes) (u : UdpSink) (env : PollEnv) (obs : List Obs)
      (sent : List (Bytes × SocketAddr))
  | panicked
  | stuck
deriving DecidableEq, Repr

/-- Embedding of `<UdpSink as Sink>::start_send`: poll the state machine; when
an address is ready, send the datagram (the boolean oracle `sendOk` is the
success of `socket.send_to`), emitting `UdpSendFailed` on send failure, and
report the item accepted; when not ready, hand the item back. -/
def start_send (u : UdpSink) (line : Bytes) (env : PollEnv) (fuel : Nat)
    (sendOk : Bool) : StartSendOutcome :=
  match poll_inner fuel u env [] with
  | .ok (.Ready address) u' env' obs =>
    let obs := obs ++ [.debugSendingEvent line.length]
    let obs := if sendOk then obs else obs ++ [.udpSendFailed]
    .ok .Ready u' env' obs [(line, address)]
  | .ok .NotReady u' env' obs => .ok (.NotReady line) u' env' obs []
  | .panicked => .panicked
  | .stuck => .stuck

/-! ## Theorems: Endpoint construction (claim C5) -/

/-- True exactly when the construction result is a `HasQuery` error. -/
def isHasQueryError (r : Except EndpointError Endpoint) : Bool :=
  match r with
  | .error (.HasQuery _) => true
  | _ => false

/-- True exactly when the construction result is a success. -/
def constructionSucceeded (r : Except EndpointError Endpoint) : Bool :=
  match r with
  | .ok _ => true
  | _ => false

/-- A parsed URI with a query string but no authority (for example the input
string "/p?q"). -/
def uriNoAuthWithQuery : Uri :=
  { scheme := none, authority := none,
    path_and_query := some { path := "/p", query := some ("q") } }

/-- C5 counterexample: `uriNoAuthWithQuery` contains a query string and lacks a
scheme, yet `Endpoint::new` fails with `MissingAuthority` — not with
`HasQuery` as the claim requires for every query-carrying input, and not with
success as the claim requires for every scheme-less input: the authority check
runs first. -/
theorem endpoint_new_claim_counterexample :
    (Uri.queryOf uriNoAuthWithQuery).isSome = true ∧
    uriNoAuthWithQuery.scheme = none ∧
    Endpoint.new uriNoAuthWithQuery = .error (.MissingAuthority uriNoAuthWithQuery) ∧
    isHasQueryError (Endpoint.new uriNoAuthWithQuery) = false ∧
    constructionSucceeded (Endpoint.new uriNoAuthWithQuery) = false := by
  refine ⟨rfl, rfl, rfl, rfl, rfl⟩

/-- C5 (amended): construction fails with `MissingAuthority` for every input
lacking an authority (even when that input also carries a query or lacks a
scheme); among inputs that have an authority, it fails with `HasQuery` exactly
when a query string is present; and every input with an authority, no query
and no scheme succeeds, silently producing an endpoint whose scheme is the
secure default (HTTPS) with an empty path-and-query attached when absent. -/
theorem endpoint_new_error_cases :
    (∀ uri : Uri, uri.authority = none →
      Endpoint.new uri = .error (.MissingAuthority uri)) ∧
    (∀ uri : Uri, uri.authority.isSome → (Uri.queryOf uri).isSome →
      Endpoint.new uri = .error (.HasQuery uri)) ∧
    (∀ uri : Uri, uri.authority.isSome → Uri.queryOf uri = none → uri.scheme = none →
      Endpoint.new uri = .ok { uri := { uri with
        scheme := some DEFAULT_SCHEME,
        path_and_query := some (uri.path_and_query.getD { path := "", query := none }) } }) := by
  refine ⟨?_, ?_, ?_⟩
  · intro uri h
    simp [Endpoint.new, h]
  · intro uri h hq
    have h1 : uri.authority.isNone = false := by
      cases huri : uri.authority <;> simp [huri] at h ⊢
    simp [Endpoint.new, h1, hq]
  · intro uri h hq hs
    have h1 : uri.authority.isNone = false := by
      cases huri : uri.authority <;> simp [huri] at h ⊢
    simp [Endpoint.new, h1, hq, hs]

/-- Witness for C5: the three cases of `endpoint_new_error_cases` instantiated
at concrete URIs. -/
theorem endpoint_new_error_cases_witness :
    Endpoint.new { scheme := some ("https"), authority := none, path_and_query := none }
      = .error (.MissingAuthority { scheme := some ("https"), authority := none, path_and_query := none }) ∧
    Endpoint.new { scheme := some ("https"), authority := some ("h"),
                   path_and_query := some { path := "/", query := some ("x") } }
      = .error (.HasQuery { scheme := some ("https"), authority := some ("h"),
                            path_and_query := some { path := "/", query := some ("x") } }) ∧
    Endpoint.new { scheme := none, authority := some ("h"), path_and_query := none }
      = .ok { uri := { scheme := some DEFAULT_SCHEME, authority := some ("h"),
                       path_and_query := some { path := "", query := none } } } :=
  ⟨endpoint_new_error_cases.1 _ rfl,
   endpoint_new_error_cases.2.1 _ (by decide) (by decide),
   endpoint_new_error_cases.2.2 _ (by decide) (by decide) (by decide)⟩

/-! ## Theorems: Endpoint path joining (claim C6) -/

theorem trimEndSlash_append_slash (l : List Char) :
    trimEndSlash (l ++ ['/']) = trimEndSlash l := by
  simp [trimEndSlash, trimStartSlash]

theorem trim_both_append_slash (l : List Char) :
    trimEndSlash (trimStartSlash (l ++ ['/'])) = trimEndSlash (trimStartSlash l) := by
  induction l with
  | nil => decide
  | cons c cs ih =>
    by_cases hc : c = '/'
    · subst hc
      simpa [trimStartSlash] using ih
    · have h1 : trimStartSlash ((c :: cs) ++ ['/']) = (c :: cs) ++ ['/'] := by
        simp [trimStartSlash, hc]
      have h2 : trimStartSlash (c :: cs) = c :: cs := by
        simp [trimStartSlash, hc]
      rw [h1, h2, trimEndSlash_append_slash]

/-- The endpoint `https://h/a/` (base path with a trailing slash). -/
def endpointSlashA : Endpoint :=
  { uri := { scheme := some ("https"), authority := some ("h"),
             path_and_query := some { path := "/a/", query := none } } }

/-- The URI `https://h/a/b`, the expected join result. -/
def uriAB : Uri :=
  { scheme := some ("https"), authority := some ("h"),
    path_and_query := some { path := "/a/b", query := none } }

/-- An endpoint with arbitrary scheme/authority and the given base path. -/
def endpointWithPath (sch auth : Option String) (basePath : String) : Endpoint :=
  { uri := { scheme := sch, authority := auth,
             path_and_query := some { path := basePath, query := none } } }

/-- C6: joining the base path "/a/" with the relative path "/b" yields exactly
"/a/b"; and in general, joining an endpoint whose base path carries a trailing
slash with a slash-prefixed relative path produces the identical URI as
joining the same base without the trailing slash with the bare relative
path. -/
theorem endpoint_build_path_join :
    (Endpoint.build endpointSlashA ("/b") = .ok uriAB) ∧
    (∀ (sch auth : Option String) (basePath rel : String),
      Endpoint.build (endpointWithPath sch auth (basePath ++ ("/"))) (("/") ++ rel)
      = Endpoint.build (endpointWithPath sch auth basePath) rel) := by
  constructor
  · rfl
  · intro sch auth basePath rel
    have hslash : (basePath ++ ("/") : String) = ("") → False := by
      intro h
      have := congrArg String.data h
      simp at this
    have hpq1 : PathAndQuery.pathFn { path := basePath ++ ("/"), query := none }
        = basePath ++ ("/") := by
      simp only [PathAndQuery.pathFn]
      rw [if_neg hslash]
    have hrel : trimStartSlashS (("/") ++ rel) = trimStartSlashS rel := by
      apply String.ext
      show trimStartSlash ((("/") ++ rel : String).data) = trimStartSlash rel.data
      rw [String.data_append]
      simp [trimStartSlash]
    have htrim : trimEndSlashS (trimStartSlashS (basePath ++ ("/")))
        = trimEndSlashS (trimStartSlashS (PathAndQuery.pathFn { path := basePath, query := none })) := by
      by_cases hb : basePath = ("")
      · subst hb
        decide
      · have hpq2 : PathAndQuery.pathFn { path := basePath, query := none } = basePath := by
          simp only [PathAndQuery.pathFn]
          rw [if_neg hb]
        rw [hpq2]
        apply String.ext
        show trimEndSlash (trimStartSlash ((basePath ++ ("/") : String).data))
            = trimEndSlash (trimStartSlash basePath.data)
        rw [String.data_append]
        exact trim_both_append_slash basePath.data
    simp only [Endpoint.build, endpointWithPath, hpq1, hrel, htrim]

/-! ## Theorems: statsd tag encoding (claim C7) -/

/-- Rendering of a single tag as the spec states it: the bare name when the
value is the literal string "true", `name:value` otherwise. -/
def tagRendered (p : String × String) : String :=
  if p.2 = ("true") then p.1 else p.1 ++ (":") ++ p.2

theorem push_tag_eq (acc name value : String) :
    push_tag acc name value = acc ++ tagRendered (name, value) := by
  by_cases h : value = ("true")
  · simp [push_tag, tagRendered, h]
  · simp [push_tag, tagRendered, h, String.append_assoc]

theorem foldl_push_tag (rest : List (String × String)) (acc : String) :
    rest.foldl (fun acc p => push_tag (acc ++ (",")) p.1 p.2) acc
      = String.intercalate.go acc (",") (rest.map tagRendered) := by
  induction rest generalizing acc with
  | nil => rfl
  | cons p rest ih =>
    rw [List.foldl_cons, List.map_cons, ih, push_tag_eq, Prod.mk.eta]
    rfl

theorem flatMap_getLast_of_groups {α : Type} {l : List α} {f : α → List String} {c : String}
    (hf : ∀ x, (f x).getLast? = some c) (hl : l ≠ []) :
    (l.flatMap f).getLast? = some c := by
  induction l with
  | nil => exact absurd rfl hl
  | cons x rest ih =>
    rw [List.flatMap_cons]
    by_cases hr : rest = []
    · subst hr
      simpa using hf x
    · rw [List.getLast?_append, ih hr]
      rfl

theorem name_colon_head_ne {name : String} {d : Char} (h : name.data.head? ≠ some d)
    (hcd : (':') ≠ d) (rest : String) :
    (name ++ (":") ++ rest).data.head? ≠ some d := by
  intro hc
  rw [String.data_append, String.data_append] at hc
  have hcolon : (":" : String).data = [':'] := rfl
  rw [hcolon] at hc
  cases hd : name.data with
  | nil =>
    rw [hd] at hc
    simp only [List.nil_append, List.cons_append, List.head?_cons, Option.some.injEq] at hc
    exact hcd hc
  | cons c cs =>
    rw [hd] at hc
    simp only [List.cons_append, List.head?_cons, Option.some.injEq] at hc
    apply h
    rw [hd, hc]
    rfl

theorem append_head_ne {c d : Char} (pre s : String) (hpre : pre.data = [c]) (hcd : c ≠ d) :
    (pre ++ s).data.head? ≠ some d := by
  rw [String.data_append, hpre]
  simp [hcd]

/-- A metric with the given tag map and no other distinguishing features,
used to exhibit the bare-`#` rendering. -/
def setMetricWithTags (tags : Option (List (String × String))) : Metric :=
  { name := "set", tags := tags, kind := .Incremental, value := .Set ["abc"] }

/-- C7 counterexample: a metric carrying a present-but-empty tag map has zero
tags, yet its encoding renders the tag segment as a bare trailing "#" rather
than omitting it: the code pushes the segment whenever the optional tag map is
present, regardless of emptiness. -/
theorem statsd_empty_tagmap_counterexample :
    encode_event (Event.Metric (setMetricWithTags (some []))) ("")
      = "set:abc|s|#\n" ∧
    encode_event (Event.Metric (setMetricWithTags (some []))) ("")
      ≠ encode_event (Event.Metric (setMetricWithTags none)) ("") := by
  constructor
  · rfl
  · decide

/-- The association list of the literal tag case from the spec, in the
`BTreeMap` ascending-key iteration order. -/
def literalTags : List (String × String) :=
  [("empty_tag", ""), ("normal_tag", "value"), ("true_tag", "true")]

/-- C7 (amended): each tag is rendered as the bare name when its value is the
literal string "true" and as `name:value` otherwise, joined with commas in the
tag map's (sorted-key) iteration order; the literal case from the spec encodes
to exactly "empty_tag:,normal_tag:value,true_tag"; the rendered tag list,
prefixed with "#", is appended as the final segment whenever the optional tag
map is present (even when it is empty, whence a bare "#"); when the tag map is
absent no segment of the encoding starts with "#". -/
theorem statsd_tag_encoding :
    (∀ tags : List (String × String),
      encode_tags tags = String.intercalate (",") (tags.map tagRendered)) ∧
    (encode_tags literalTags = "empty_tag:,normal_tag:value,true_tag") ∧
    (∀ (m : Metric) (t : List (String × String)), m.tags = some t →
      encode_metric_buf m ≠ [] →
      (encode_metric_buf m).getLast? = some (("#") ++ encode_tags t)) ∧
    (∀ m : Metric, m.tags = none → m.name.data.head? ≠ some '#' →
      ∀ s ∈ encode_metric_buf m, s.data.head? ≠ some '#') := by
  refine ⟨?_, by rfl, ?_, ?_⟩
  · intro tags
    match tags with
    | [] => rfl
    | p :: rest =>
      show rest.foldl _ (push_tag ("") p.1 p.2) = _
      rw [foldl_push_tag, push_tag_eq, Prod.mk.eta, String.empty_append]
      rfl
  · intro m t ht hne
    obtain ⟨name, tags, kind, value⟩ := m
    cases ht
    cases kind with
    | Incremental =>
      cases value with
      | Counter v => rfl
      | Gauge v => rfl
      | Distribution vals rates stat =>
        simp only [encode_metric_buf] at hne ⊢
        apply flatMap_getLast_of_groups
        · intro p
          exact List.getLast?_concat _
        · intro hnil
          exact hne (by rw [hnil]; rfl)
      | Set vals =>
        simp only [encode_metric_buf] at hne ⊢
        apply flatMap_getLast_of_groups
        · intro v
          exact List.getLast?_concat _
        · intro hnil
          exact hne (by rw [hnil]; rfl)
    | Absolute =>
      cases value with
      | Counter v => exact absurd rfl hne
      | Gauge v => rfl
      | Distribution vals rates stat => exact absurd rfl hne
      | Set vals => exact absurd rfl hne
  · intro m hnone hname s hs
    obtain ⟨name, tags, kind, value⟩ := m
    cases hnone
    cases kind with
    | Incremental =>
      cases value with
      | Counter v =>
        simp only [encode_metric_buf, List.singleton_append, List.mem_cons, List.not_mem_nil, or_false] at hs
        rcases hs with rfl | rfl
        · exact name_colon_head_ne hname (by decide) _
        · decide
      | Gauge v =>
        simp only [encode_metric_buf, List.singleton_append, List.mem_cons, List.not_mem_nil, or_false] at hs
        rcases hs with rfl | rfl
        · exact name_colon_head_ne hname (by decide) _
        · decide
      | Distribution vals rates stat =>
        cases stat <;>
        · simp only [encode_metric_buf, List.mem_flatMap] at hs
          obtain ⟨p, _, hp⟩ := hs
          simp only [distribution_segments] at hp
          by_cases h1 : p.2 ≠ 1
          · rw [if_pos h1] at hp
            simp only [List.mem_append, List.mem_cons, List.not_mem_nil, or_false] at hp
            rcases hp with (rfl | rfl) | rfl
            · exact name_colon_head_ne hname (by decide) _
            · decide
            · exact append_head_ne _ _ rfl (by decide)
          · rw [if_neg h1] at hp
            simp only [List.singleton_append, List.mem_cons, List.not_mem_nil, or_false] at hp
            rcases hp with rfl | rfl
            · exact name_colon_head_ne hname (by decide) _
            · decide
      | Set vals =>
        simp only [encode_metric_buf, List.mem_flatMap] at hs
        obtain ⟨v, _, hp⟩ := hs
        simp only [set_segments, List.singleton_append, List.mem_cons, List.not_mem_nil, or_false] at hp
        rcases hp with rfl | rfl
        · exact name_colon_head_ne hname (by decide) _
        · decide
    | Absolute =>
      cases value with
      | Counter v => simp [encode_metric_buf] at hs
      | Gauge v =>
        simp only [encode_metric_buf, List.singleton_append, List.mem_cons, List.not_mem_nil, or_false] at hs
        rcases hs with rfl | rfl
        · exact name_colon_head_ne hname (by decide) _
        · decide
      | Distribution vals rates stat => simp [encode_metric_buf] at hs
      | Set vals => simp [encode_metric_buf] at hs

/-- A metric carrying the spec's literal tag map, for the C7 witness. -/
def wTagMetric : Metric :=
  { name := "counter", tags := some literalTags, kind := .Incremental, value := .Counter 2 }

/-- The same metric with the tag map absent. -/
def wNoTagMetric : Metric :=
  { name := "counter", tags := none, kind := .Incremental, value := .Counter 2 }

/-- Witness for C7: the hypothesis-bearing parts of `statsd_tag_encoding`
instantiated at concrete metrics. -/
theorem statsd_tag_encoding_witness :
    (encode_metric_buf wTagMetric).getLast? = some (("#") ++ encode_tags literalTags) ∧
    ((("counter") ++ (":") ++ fmtF64 2).data.head? ≠ some '#') :=
  ⟨statsd_tag_encoding.2.2.1 wTagMetric literalTags rfl (by decide),
   statsd_tag_encoding.2.2.2 wNoTagMetric rfl (by decide) _ (by decide)⟩

/-! ## Theorems: statsd distribution sample rates (claim C8) -/

theorem countP_flatMap {α : Type} (l : List α) (f : α → List String) (p : String → Bool) :
    (l.flatMap f).countP p = (l.map (fun x => (f x).countP p)).sum := by
  induction l with
  | nil => rfl
  | cons x rest ih => simp [List.flatMap_cons, List.countP_append, ih]

theorem countP_eq_sum_if {α : Type} (l : List α) (p : α → Bool) :
    (l.map (fun x => if p x then 1 else 0)).sum = l.countP p := by
  induction l with
  | nil => rfl
  | cons x rest ih =>
    by_cases h : p x <;> simp [List.countP_cons, h, ih, Nat.add_comm]

theorem at_seg_head (s : String) : ((("@") ++ s).data.head? == some '@') = true := rfl

theorem hash_seg_head (s : String) : ((("#") ++ s).data.head? == some '@') = false := rfl

/-- The "@"-prefixed rate suffix appears in the segments of one distribution
pair exactly when the pair's sample rate differs from 1. -/
theorem distribution_segments_countP (name mt : String)
    (tags : Option (List (String × String))) (p : Rat × Nat)
    (hname : name.data.head? ≠ some '@')
    (hmt : (mt.data.head? == some '@') = false) :
    (distribution_segments name mt tags p).countP (fun s => s.data.head? == some '@')
      = if p.2 != 1 then 1 else 0 := by
  cases tags <;> by_cases h1 : p.2 ≠ 1 <;>
    simp [distribution_segments, h1, List.countP_append, List.countP_cons, hname, hmt,
      at_seg_head, hash_seg_head, bne_iff_ne]

/-- An Incremental Distribution metric assembled from its parts. -/
def distMetric (name : String) (tags : Option (List (String × String)))
    (vals : List Rat) (rates : List Nat) (stat : StatisticKind) : Metric :=
  { name := name, tags := tags, kind := .Incremental, value := .Distribution vals rates stat }

/-- C8 (amended): for an Incremental Distribution metric, each
(value, sample_rate) pair contributes exactly one "@"-prefixed rate segment
when its sample rate differs from 1 and none when the rate equals 1 — counted
over the whole encoding, the "@"-prefixed segments are in bijection with the
pairs whose rate is not 1.  A rate of 0 therefore is not rejected and not
treated as 1: it takes the rate-suffix branch, where the IEEE division
`1.0 / 0.0` yields positive infinity and an "@inf" segment is emitted (see the
counterexample). -/
theorem statsd_distribution_sample_rate :
    ∀ (name : String) (tags : Option (List (String × String))) (vals : List Rat)
      (rates : List Nat) (stat : StatisticKind), name.data.head? ≠ some '@' →
      (encode_metric_buf (distMetric name tags vals rates stat)).countP
          (fun s => s.data.head? == some '@')
        = (vals.zip rates).countP (fun p => p.2 != 1) := by
  intro name tags vals rates stat hname
  cases stat <;>
  · simp only [distMetric, encode_metric_buf]
    rw [countP_flatMap, ← countP_eq_sum_if]
    refine congrArg List.sum (List.map_congr_left ?_)
    intro p _
    exact distribution_segments_countP _ _ _ _ hname rfl

/-- The distribution metric `{values := [2], sample_rates := [0]}`. -/
def distZeroRateMetric : Metric :=
  { name := "d", tags := none, kind := .Incremental,
    value := .Distribution [2] [0] .Histogram }

/-- The same metric with the sample rate 1 instead of 0. -/
def distOneRateMetric : Metric :=
  { name := "d", tags := none, kind := .Incremental,
    value := .Distribution [2] [1] .Histogram }

/-- C8 counterexample: a zero sample rate is neither rejected nor treated
as 1: the encoder takes the `sample_rate != 1` branch, performs the division
`1.0 / 0.0` (positive infinity under IEEE semantics — the claimed
"never performs a division by zero" fails), and emits an "@inf" segment, so
the output differs from the treated-as-1 encoding. -/
theorem statsd_sample_rate_zero_counterexample :
    encode_event (Event.Metric distZeroRateMetric) ("") = "d:2|h|@inf\n" ∧
    encode_event (Event.Metric distZeroRateMetric) ("")
      ≠ encode_event (Event.Metric distOneRateMetric) ("") :=
  ⟨rfl, by decide⟩

/-- Witness for C8: the count theorem instantiated at the concrete rate-0
distribution metric. -/
theorem statsd_distribution_sample_rate_witness :
    (encode_metric_buf distZeroRateMetric).countP (fun s => s.data.head? == some '@')
      = ([(2 : Rat)].zip [0]).countP (fun p => p.2 != 1) :=
  statsd_distribution_sample_rate ("d") none [2] [0] .Histogram (by decide)

/-! ## Theorems: statsd unsupported metric shapes (claim C9) -/

/-- An Absolute Counter metric, unsupported by the statsd encoder. -/
def absCounterMetric : Metric :=
  { name := "c", tags := none, kind := .Absolute, value := .Counter 2 }

/-- C9 counterexample: encoding an Absolute Counter produces the one-byte
packet "\n" — a blank line on the wire — rather than an empty result as the
claim states. -/
theorem statsd_unsupported_newline_counterexample :
    encode_event (Event.Metric absCounterMetric) ("") = "\n" ∧
    encode_event (Event.Metric absCounterMetric) ("") ≠ ("") :=
  ⟨rfl, by decide⟩

/-- C9 (amended): for every metric whose kind is Absolute and whose value is
not a Gauge, encoding produces no metric segments and raises no error (the
encoder is total), but its result is not empty: it is the lone newline
terminator, prefixed by "namespace." when a non-empty namespace is
configured.  In the modelled value shapes every Incremental metric is
supported, so the Incremental half of the claim is vacuous. -/
theorem statsd_unsupported_silent :
    ∀ (m : Metric) (nspace : String), m.kind = .Absolute →
      (∀ v, m.value ≠ .Gauge v) →
      encode_metric_buf m = [] ∧
      encode_event (Event.Metric m) nspace
        = (if nspace.isEmpty then ("") else nspace ++ (".")) ++ ("\n") := by
  intro m nspace hk hval
  obtain ⟨name, tags, kind, value⟩ := m
  cases hk
  have hbuf : encode_metric_buf { name := name, tags := tags, kind := .Absolute, value := value } = [] := by
    cases value with
    | Counter v => rfl
    | Gauge v => exact absurd rfl (hval v)
    | Distribution a b c => rfl
    | Set a => rfl
  refine ⟨hbuf, ?_⟩
  simp only [encode_event, Event.as_metric, hbuf]
  by_cases h : nspace.isEmpty <;> simp [h, String.intercalate]

/-- Witness for C9: the amended theorem instantiated at the Absolute Counter
metric with namespace "ns". -/
theorem statsd_unsupported_silent_witness :
    encode_metric_buf absCounterMetric = [] ∧
    encode_event (Event.Metric absCounterMetric) ("ns")
      = (if ("ns" : String).isEmpty then ("") else ("ns") ++ (".")) ++ ("\n") :=
  statsd_unsupported_silent absCounterMetric ("ns") rfl
    (fun _ h => MetricValue.noConfusion h)

/-! ## Theorems: UDP backoff iterator (claim C4) -/

theorem backoff_next_isSome (b : ExponentialBackoff) : b.next.isSome = true := by
  unfold ExponentialBackoff.next
  cases b.max_delay with
  | none => rfl
  | some md =>
    dsimp only
    split <;> split <;> rfl

theorem backoff_next_eq (b : ExponentialBackoff) :
    b.next = some (emittedDelay b, advanceBackoff b) := by
  cases hb : b.next with
  | none =>
    have := backoff_next_isSome b
    rw [hb] at this
    simp at this
  | some p => simp [emittedDelay, advanceBackoff, hb]

/-- The configuration invariant maintained by a sink's backoff iterator: the
constants of `fresh_backoff` plus in-range position. -/
def goodBackoff (b : ExponentialBackoff) : Prop :=
  b.base = 2 ∧ b.factor = 250 ∧ b.max_delay = some 60000 ∧ b.current ≤ U64MAX

theorem goodBackoff_fresh : goodBackoff fresh_backoff := by
  refine ⟨rfl, rfl, rfl, ?_⟩
  norm_num [fresh_backoff, U64MAX]

theorem backoff_next_formula {b : ExponentialBackoff} (h1 : b.base = 2) (h2 : b.factor = 250)
    (h3 : b.max_delay = some 60000) :
    b.next = some (min (if b.current * 250 ≤ U64MAX then b.current * 250 else U64MAX) 60000,
      if 60000 < (if b.current * 250 ≤ U64MAX then b.current * 250 else U64MAX) then b
      else { b with current := if b.current * 2 ≤ U64MAX then b.current * 2 else U64MAX }) := by
  unfold ExponentialBackoff.next
  rw [h1, h2, h3]
  dsimp only
  by_cases hlt : 60000 < (if b.current * 250 ≤ U64MAX then b.current * 250 else U64MAX)
  · rw [if_pos hlt, if_pos hlt, min_eq_right (Nat.le_of_lt hlt)]
  · rw [if_neg hlt, if_neg hlt, min_eq_left (Nat.le_of_not_lt hlt)]

theorem emittedDelay_eq_min {b : ExponentialBackoff} (h1 : b.base = 2) (h2 : b.factor = 250)
    (h3 : b.max_delay = some 60000) :
    emittedDelay b
      = min (if b.current * 250 ≤ U64MAX then b.current * 250 else U64MAX) 60000 := by
  unfold emittedDelay
  rw [backoff_next_formula h1 h2 h3]

theorem advanceBackoff_eq {b : ExponentialBackoff} (h1 : b.base = 2) (h2 : b.factor = 250)
    (h3 : b.max_delay = some 60000) :
    advanceBackoff b
      = if 60000 < (if b.current * 250 ≤ U64MAX then b.current * 250 else U64MAX) then b
        else { b with current := if b.current * 2 ≤ U64MAX then b.current * 2 else U64MAX } := by
  unfold advanceBackoff
  rw [backoff_next_formula h1 h2 h3]

theorem goodBackoff_advance {b : ExponentialBackoff} (h : goodBackoff b) :
    goodBackoff (advanceBackoff b) := by
  obtain ⟨h1, h2, h3, h4⟩ := h
  rw [advanceBackoff_eq h1 h2 h3]
  by_cases hlt : 60000 < (if b.current * 250 ≤ U64MAX then b.current * 250 else U64MAX)
  · rw [if_pos hlt]
    exact ⟨h1, h2, h3, h4⟩
  · rw [if_neg hlt]
    refine ⟨h1, h2, h3, ?_⟩
    show (if b.current * 2 ≤ U64MAX then b.current * 2 else U64MAX) ≤ U64MAX
    split <;> omega

theorem current_le_advance {b : ExponentialBackoff} (h : goodBackoff b) :
    b.current ≤ (advanceBackoff b).current := by
  obtain ⟨h1, h2, h3, h4⟩ := h
  rw [advanceBackoff_eq h1 h2 h3]
  by_cases hlt : 60000 < (if b.current * 250 ≤ U64MAX then b.current * 250 else U64MAX)
  · rw [if_pos hlt]
  · rw [if_neg hlt]
    show b.current ≤ (if b.current * 2 ≤ U64MAX then b.current * 2 else U64MAX)
    split <;> omega

theorem emittedDelay_le_cap {b : ExponentialBackoff} (h : goodBackoff b) :
    emittedDelay b ≤ 60000 := by
  obtain ⟨h1, h2, h3, _⟩ := h
  rw [emittedDelay_eq_min h1 h2 h3]
  omega

theorem emittedDelay_mono {b b' : ExponentialBackoff} (hb : goodBackoff b)
    (hb' : goodBackoff b') (hc : b.current ≤ b'.current) :
    emittedDelay b ≤ emittedDelay b' := by
  obtain ⟨h1, h2, h3, _⟩ := hb
  obtain ⟨h1', h2', h3', _⟩ := hb'
  rw [emittedDelay_eq_min h1 h2 h3, emittedDelay_eq_min h1' h2' h3']
  have hmul : b.current * 250 ≤ b'.current * 250 := Nat.mul_le_mul_right _ hc
  split <;> split <;> omega

theorem goodBackoff_iter (n : Nat) : goodBackoff (advanceBackoff^[n] fresh_backoff) := by
  induction n with
  | zero => exact goodBackoff_fresh
  | succ n ih =>
    rw [Function.iterate_succ_apply']
    exact goodBackoff_advance ih

theorem delaySeq_mono (n : Nat) : delaySeq n ≤ delaySeq (n + 1) := by
  unfold delaySeq
  rw [Function.iterate_succ_apply']
  exact emittedDelay_mono (goodBackoff_iter n) (goodBackoff_advance (goodBackoff_iter n))
    (current_le_advance (goodBackoff_iter n))

theorem delaySeq_le_cap (n : Nat) : delaySeq n ≤ 60000 :=
  emittedDelay_le_cap (goodBackoff_iter n)

/-! ## Structural lemmas about the poll loop -/

theorem poll_step_props (u : UdpSink) (env : PollEnv) (u₁ : UdpSink) (env₁ : PollEnv)
    (o : List Obs) (res : StepRes) (h : poll_step u env = (u₁, env₁, o, res)) :
    (u₁.backoff = u.backoff ∨ u₁.backoff = advanceBackoff u.backoff) ∧
    (env₁.delays = env.delays ∨ env₁.delays = env.delays.tail) ∧
    (∀ b, res = .retReady b → u₁ = u ∧ u.state = .ResolvedDns b) ∧
    (res = .panicked → ∃ rest, env.delays = .errored :: rest) := by
  cases hs : u.state with
  | Initializing =>
    simp only [poll_step, hs] at h
    simp only [Prod.mk.injEq] at h
    obtain ⟨h1, h2, h3, h4⟩ := h
    subst h1; subst h2; subst h4
    exact ⟨Or.inl rfl, Or.inl rfl, fun b hb => StepRes.noConfusion hb, fun hb => StepRes.noConfusion hb⟩
  | ResolvingDns =>
    simp only [poll_step, hs] at h
    cases hd : env.dns with
    | nil =>
      rw [hd] at h
      simp only [Prod.mk.injEq] at h
      obtain ⟨h1, h2, h3, h4⟩ := h
      subst h1; subst h2; subst h4
      exact ⟨Or.inl rfl, Or.inl rfl, fun b hb => StepRes.noConfusion hb, fun hb => StepRes.noConfusion hb⟩
    | cons d rest =>
      rw [hd] at h
      cases d with
      | ready addrs =>
        cases addrs with
        | nil =>
          rw [backoff_next_eq u.backoff] at h
          dsimp only at h
          simp only [Prod.mk.injEq] at h
          obtain ⟨h1, h2, h3, h4⟩ := h
          subst h1; subst h2; subst h4
          exact ⟨Or.inr rfl, Or.inl rfl, fun b hb => StepRes.noConfusion hb, fun hb => StepRes.noConfusion hb⟩
        | cons a as =>
          dsimp only at h
          simp only [Prod.mk.injEq] at h
          obtain ⟨h1, h2, h3, h4⟩ := h
          subst h1; subst h2; subst h4
          exact ⟨Or.inl rfl, Or.inl rfl, fun b hb => StepRes.noConfusion hb, fun hb => StepRes.noConfusion hb⟩
      | notReady =>
        dsimp only at h
        simp only [Prod.mk.injEq] at h
        obtain ⟨h1, h2, h3, h4⟩ := h
        subst h1; subst h2; subst h4
        exact ⟨Or.inl rfl, Or.inl rfl, fun b hb => StepRes.noConfusion hb, fun hb => StepRes.noConfusion hb⟩
      | err =>
        rw [backoff_next_eq u.backoff] at h
        dsimp only at h
        simp only [Prod.mk.injEq] at h
        obtain ⟨h1, h2, h3, h4⟩ := h
        subst h1; subst h2; subst h4
        exact ⟨Or.inr rfl, Or.inl rfl, fun b hb => StepRes.noConfusion hb, fun hb => StepRes.noConfusion hb⟩
  | ResolvedDns addr =>
    simp only [poll_step, hs] at h
    simp only [Prod.mk.injEq] at h
    obtain ⟨h1, h2, h3, h4⟩ := h
    subst h1; subst h2; subst h4
    refine ⟨Or.inl rfl, Or.inl rfl, ?_, fun hb => StepRes.noConfusion hb⟩
    intro b hb
    injection hb with hb'
    subst hb'
    exact ⟨rfl, rfl⟩
  | Backoff =>
    simp only [poll_step, hs] at h
    cases hd : env.delays with
    | nil =>
      rw [hd] at h
      simp only [Prod.mk.injEq] at h
      obtain ⟨h1, h2, h3, h4⟩ := h
      subst h1; subst h2; subst h4
      exact ⟨Or.inl rfl, Or.inl hd, fun b hb => StepRes.noConfusion hb, fun hb => StepRes.noConfusion hb⟩
    | cons d rest =>
      rw [hd] at h
      cases d with
      | notReady =>
        dsimp only at h
        simp only [Prod.mk.injEq] at h
        obtain ⟨h1, h2, h3, h4⟩ := h
        subst h1; subst h2; subst h4
        exact ⟨Or.inl rfl, Or.inr rfl, fun b hb => StepRes.noConfusion hb, fun hb => StepRes.noConfusion hb⟩
      | ready =>
        dsimp only at h
        simp only [Prod.mk.injEq] at h
        obtain ⟨h1, h2, h3, h4⟩ := h
        subst h1; subst h2; subst h4
        exact ⟨Or.inl rfl, Or.inr rfl, fun b hb => StepRes.noConfusion hb, fun hb => StepRes.noConfusion hb⟩
      | errored =>
        dsimp only at h
        simp only [Prod.mk.injEq] at h
        obtain ⟨h1, h2, h3, h4⟩ := h
        subst h1; subst h2; subst h4
        exact ⟨Or.inl rfl, Or.inr rfl, fun b hb => StepRes.noConfusion hb, fun _ => ⟨rest, rfl⟩⟩

theorem poll_inner_ready_state (fuel : Nat) :
    ∀ (u : UdpSink) (env : PollEnv) (obs : List Obs) (a : SocketAddr) (u' : UdpSink)
      (env' : PollEnv) (obs' : List Obs),
      poll_inner fuel u env obs = .ok (.Ready a) u' env' obs' → u'.state = .ResolvedDns a := by
  induction fuel with
  | zero =>
    intro u env obs a u' env' obs' h
    simp [poll_inner] at h
  | succ n ih =>
    intro u env obs a u' env' obs' h
    simp only [poll_inner] at h
    rcases hps : poll_step u env with ⟨u₁, env₁, o₁, res⟩
    rw [hps] at h
    have props := poll_step_props u env u₁ env₁ o₁ res hps
    cases res with
    | cont => exact ih _ _ _ _ _ _ _ h
    | retReady b =>
      simp only [PollOutcome.ok.injEq, Async.Ready.injEq] at h
      obtain ⟨hba, hu, _, _⟩ := h
      subst hba
      subst hu
      obtain ⟨hq, hst⟩ := props.2.2.1 _ rfl
      rw [hq]
      exact hst
    | retNotReady => simp at h
    | panicked => simp at h
    | stuck => simp at h

theorem poll_inner_no_panic (fuel : Nat) :
    ∀ (u : UdpSink) (env : PollEnv) (obs : List Obs),
      (∀ d ∈ env.delays, d ≠ .errored) → poll_inner fuel u env obs ≠ .panicked := by
  induction fuel with
  | zero =>
    intro u env obs hd h
    simp [poll_inner] at h
  | succ n ih =>
    intro u env obs hd h
    simp only [poll_inner] at h
    rcases hps : poll_step u env with ⟨u₁, env₁, o₁, res⟩
    rw [hps] at h
    have props := poll_step_props u env u₁ env₁ o₁ res hps
    cases res with
    | cont =>
      refine ih u₁ env₁ (obs ++ o₁) ?_ h
      rcases props.2.1 with he | he
      · rw [he]; exact hd
      · rw [he]
        intro d hdm
        exact hd d ((List.tail_sublist _).subset hdm)
    | retReady b => simp at h
    | retNotReady => simp at h
    | panicked =>
      obtain ⟨rest, hrest⟩ := props.2.2.2 rfl
      exact absurd rfl (hd .errored (by rw [hrest]; exact List.mem_cons_self _ _))
    | stuck => simp at h

theorem poll_inner_backoff_advances (fuel : Nat) :
    ∀ (u : UdpSink) (env : PollEnv) (obs : List Obs) (r : Async SocketAddr) (u' : UdpSink)
      (env' : PollEnv) (obs' : List Obs),
      poll_inner fuel u env obs = .ok r u' env' obs' →
      ∃ k, u'.backoff = advanceBackoff^[k] u.backoff := by
  induction fuel with
  | zero =>
    intro u env obs r u' env' obs' h
    simp [poll_inner] at h
  | succ n ih =>
    intro u env obs r u' env' obs' h
    simp only [poll_inner] at h
    rcases hps : poll_step u env with ⟨u₁, env₁, o₁, res⟩
    rw [hps] at h
    have props := poll_step_props u env u₁ env₁ o₁ res hps
    cases res with
    | cont =>
      obtain ⟨k, hk⟩ := ih u₁ env₁ (obs ++ o₁) r u' env' obs' h
      rcases props.1 with hb | hb
      · exact ⟨k, by rw [hk, hb]⟩
      · exact ⟨k + 1, by rw [hk, hb, ← Function.iterate_succ_apply]⟩
    | retReady b =>
      simp only [PollOutcome.ok.injEq] at h
      obtain ⟨_, hu, _, _⟩ := h
      subst hu
      rcases props.1 with hb | hb
      · exact ⟨0, hb⟩
      · exact ⟨1, hb⟩
    | retNotReady =>
      simp only [PollOutcome.ok.injEq] at h
      obtain ⟨_, hu, _, _⟩ := h
      subst hu
      rcases props.1 with hb | hb
      · exact ⟨0, hb⟩
      · exact ⟨1, hb⟩
    | panicked => simp at h
    | stuck => simp at h

/-! ## Theorems: UDP transport claims (C1, C2, C3, C4, C10) -/

/-- C1: with the state machine in `ResolvedDns`, `start_send` of a packet
whose OS-level send fails reports the failure on the observability
side-channel (`UdpSendFailed`), leaves the sink unchanged (still `ResolvedDns`
with the same cached address and the same backoff position), hands the packet
to the socket exactly once (no retry), and still returns success
(`AsyncSink::Ready`) — the event is dropped, no error propagates.
Conversely, a send is attempted only while in `ResolvedDns`: whenever the sent
list of a `start_send` call is non-empty, the call accepted the item and the
final state is `ResolvedDns` holding the very address the single datagram was
sent to. -/
theorem udp_send_failure_behavior :
    (∀ (u : UdpSink) (addr : SocketAddr) (line : Bytes) (env : PollEnv) (fuel : Nat),
      u.state = .ResolvedDns addr →
      start_send u line env (fuel + 1) false
        = .ok .Ready u env [.debugSendingEvent line.length, .udpSendFailed] [(line, addr)]) ∧
    (∀ (u : UdpSink) (line : Bytes) (env : PollEnv) (fuel : Nat) (sendOk : Bool)
       (r : AsyncSink Bytes) (u' : UdpSink) (env' : PollEnv) (obs : List Obs)
       (sent : List (Bytes × SocketAddr)),
      start_send u line env fuel sendOk = .ok r u' env' obs sent → sent ≠ [] →
      r = .Ready ∧ ∃ a, u'.state = .ResolvedDns a ∧ sent = [(line, a)]) := by
  constructor
  · intro u addr line env fuel hs
    simp [start_send, poll_inner, poll_step, hs]
  · intro u line env fuel sendOk r u' env' obs sent h hne
    unfold start_send at h
    cases hpi : poll_inner fuel u env [] with
    | ok r₁ u₁ env₁ obs₁ =>
      rw [hpi] at h
      cases r₁ with
      | Ready address =>
        simp only [StartSendOutcome.ok.injEq] at h
        obtain ⟨hr, hu, henv, hobs, hsent⟩ := h
        refine ⟨hr.symm, address, ?_, hsent.symm⟩
        rw [← hu]
        exact poll_inner_ready_state fuel u env [] address u₁ env₁ obs₁ hpi
      | NotReady =>
        simp only [StartSendOutcome.ok.injEq] at h
        obtain ⟨_, _, _, _, hsent⟩ := h
        exact absurd hsent.symm hne
    | panicked =>
      rw [hpi] at h
      exact StartSendOutcome.noConfusion h
    | stuck =>
      rw [hpi] at h
      exact StartSendOutcome.noConfusion h

/-- Witness for C1: both parts at a concrete resolved sink, a concrete packet
and a failing send. -/
theorem udp_send_failure_behavior_witness :
    (start_send { host := "h", port := 9, state := State.ResolvedDns { ip := 7, port := 9 }, backoff := fresh_backoff } [1, 2] { dns := [], delays := [] } 1 false
      = .ok .Ready { host := "h", port := 9, state := State.ResolvedDns { ip := 7, port := 9 }, backoff := fresh_backoff } { dns := [], delays := [] } [.debugSendingEvent 2, .udpSendFailed] [([1, 2], { ip := 7, port := 9 })]) ∧
    (AsyncSink.Ready = (AsyncSink.Ready : AsyncSink Bytes) ∧
      ∃ a, ({ host := "h", port := 9, state := State.ResolvedDns { ip := 7, port := 9 }, backoff := fresh_backoff } : UdpSink).state = .ResolvedDns a ∧
        ([([1, 2], { ip := 7, port := 9 })] : List (Bytes × SocketAddr)) = [([1, 2], a)]) :=
  ⟨udp_send_failure_behavior.1 _ _ [1, 2] _ 0 rfl,
   udp_send_failure_behavior.2 _ [1, 2] { dns := [], delays := [] } 1 false _ _ _ _ _
     (udp_send_failure_behavior.1 _ { ip := 7, port := 9 } [1, 2] _ 0 rfl) (by decide)⟩

/-- C2: while the state machine is in `ResolvingDns` with the resolution still
pending, or in `Backoff` with the delay still pending, `start_send` does not
accept the offered item: it returns `NotReady` carrying the item back to the
caller, the sink is unchanged, nothing is written to the socket and nothing is
emitted. -/
theorem udp_backpressure_not_ready :
    (∀ (u : UdpSink) (line : Bytes) (env : PollEnv) (fuel : Nat) (sendOk : Bool)
       (rest : List DnsPoll),
      u.state = .ResolvingDns → env.dns = .notReady :: rest →
      start_send u line env (fuel + 1) sendOk
        = .ok (.NotReady line) u { env with dns := rest } [] []) ∧
    (∀ (u : UdpSink) (line : Bytes) (env : PollEnv) (fuel : Nat) (sendOk : Bool)
       (rest : List DelayPoll),
      u.state = .Backoff → env.delays = .notReady :: rest →
      start_send u line env (fuel + 1) sendOk
        = .ok (.NotReady line) u { env with delays := rest } [] []) := by
  constructor <;>
  · intro u line env fuel sendOk rest hs hd
    simp [start_send, poll_inner, poll_step, hs, hd]

/-- Witness for C2: both pending states at concrete sinks. -/
theorem udp_backpressure_not_ready_witness :
    (start_send { host := "h", port := 9, state := State.ResolvingDns, backoff := fresh_backoff } [9] { dns := [DnsPoll.notReady], delays := [] } 1 true
      = .ok (.NotReady [9]) { host := "h", port := 9, state := State.ResolvingDns, backoff := fresh_backoff } { dns := [], delays := [] } [] []) ∧
    (start_send { host := "h", port := 9, state := State.Backoff, backoff := fresh_backoff } [9] { dns := [], delays := [DelayPoll.notReady] } 1 true
      = .ok (.NotReady [9]) { host := "h", port := 9, state := State.Backoff, backoff := fresh_backoff } { dns := [], delays := [] } [] []) :=
  ⟨udp_backpressure_not_ready.1 _ [9] _ 0 true [] rfl rfl,
   udp_backpressure_not_ready.2 _ [9] _ 0 true [] rfl rfl⟩

/-- C3: the transitions of the state machine's step function.  From
`ResolvingDns`: a resolution yielding at least one address moves to
`ResolvedDns` holding the first returned address paired with the configured
port, independently of any further addresses (deterministic, no load
balancing); a resolution error and an empty successful resolution are treated
identically — both report an error on the side-channel and move to `Backoff`
with the backoff iterator advanced once.  From `Backoff`, elapse of the delay
moves to `Initializing`.  `ResolvedDns` never auto-transitions: the step
returns the cached address and leaves the sink untouched. -/
theorem udp_poll_step_transitions :
    (∀ (u : UdpSink) (env : PollEnv) (a : IpAddr) (rest' : List IpAddr) (rest : List DnsPoll),
      u.state = .ResolvingDns → env.dns = .ready (a :: rest') :: rest →
      poll_step u env
        = ({ u with state := .ResolvedDns { ip := a, port := u.port } }, { env with dns := rest },
           [.debugResolvedAddress { ip := a, port := u.port }], .cont)) ∧
    (∀ (u : UdpSink) (env : PollEnv) (rest : List DnsPoll),
      u.state = .ResolvingDns → env.dns = .ready [] :: rest →
      poll_step u env
        = ({ u with state := .Backoff, backoff := advanceBackoff u.backoff },
           { env with dns := rest }, [.errorDnsNoAddresses], .cont)) ∧
    (∀ (u : UdpSink) (env : PollEnv) (rest : List DnsPoll),
      u.state = .ResolvingDns → env.dns = .err :: rest →
      poll_step u env
        = ({ u with state := .Backoff, backoff := advanceBackoff u.backoff },
           { env with dns := rest }, [.errorDnsFailure], .cont)) ∧
    (∀ (u : UdpSink) (env : PollEnv) (rest : List DelayPoll),
      u.state = .Backoff → env.delays = .ready :: rest →
      poll_step u env
        = ({ u with state := .Initializing }, { env with delays := rest }, [], .cont)) ∧
    (∀ (u : UdpSink) (env : PollEnv) (addr : SocketAddr),
      u.state = .ResolvedDns addr →
      poll_step u env = (u, env, [], .retReady addr)) := by
  refine ⟨?_, ?_, ?_, ?_, ?_⟩
  · intro u env a rest' rest hs hd
    simp [poll_step, hs, hd]
  · intro u env rest hs hd
    simp [poll_step, hs, hd, backoff_next_eq]
  · intro u env rest hs hd
    simp [poll_step, hs, hd, backoff_next_eq]
  · intro u env rest hs hd
    simp [poll_step, hs, hd]
  · intro u env addr hs
    simp [poll_step, hs]

/-- Witness for C3: the five transitions at concrete sinks and oracle
streams. -/
theorem udp_poll_step_transitions_witness :
    (poll_step { host := "h", port := 9, state := State.ResolvingDns, backoff := fresh_backoff } { dns := [DnsPoll.ready [7, 8]], delays := [] }
      = ({ host := "h", port := 9, state := State.ResolvedDns { ip := 7, port := 9 }, backoff := fresh_backoff }, { dns := [], delays := [] }, [.debugResolvedAddress { ip := 7, port := 9 }], .cont)) ∧
    (poll_step { host := "h", port := 9, state := State.ResolvingDns, backoff := fresh_backoff } { dns := [DnsPoll.ready []], delays := [] }
      = ({ host := "h", port := 9, state := State.Backoff, backoff := advanceBackoff fresh_backoff }, { dns := [], delays := [] }, [.errorDnsNoAddresses], .cont)) ∧
    (poll_step { host := "h", port := 9, state := State.ResolvingDns, backoff := fresh_backoff } { dns := [DnsPoll.err], delays := [] }
      = ({ host := "h", port := 9, state := State.Backoff, backoff := advanceBackoff fresh_backoff }, { dns := [], delays := [] }, [.errorDnsFailure], .cont)) ∧
    (poll_step { host := "h", port := 9, state := State.Backoff, backoff := fresh_backoff } { dns := [], delays := [DelayPoll.ready] }
      = ({ host := "h", port := 9, state := State.Initializing, backoff := fresh_backoff }, { dns := [], delays := [] }, [], .cont)) ∧
    (poll_step { host := "h", port := 9, state := State.ResolvedDns { ip := 7, port := 9 }, backoff := fresh_backoff } { dns := [], delays := [] }
      = ({ host := "h", port := 9, state := State.ResolvedDns { ip := 7, port := 9 }, backoff := fresh_backoff }, { dns := [], delays := [] }, [], .retReady { ip := 7, port := 9 })) :=
  ⟨udp_poll_step_transitions.1 _ _ 7 [8] [] rfl rfl,
   udp_poll_step_transitions.2.1 _ _ [] rfl rfl,
   udp_poll_step_transitions.2.2.1 _ _ [] rfl rfl,
   udp_poll_step_transitions.2.2.2.1 _ _ [] rfl rfl,
   udp_poll_step_transitions.2.2.2.2 _ _ _ rfl⟩

/-- C4: the successive delays drawn by one sink's backoff iterator form a
non-decreasing sequence that never exceeds the configured one-minute cap
(60000 ms), and across any completed `poll_inner` call the sink's backoff
iterator is never reset: the final position is the initial one advanced
forward some number of times (`fresh_backoff` is consulted only at sink
construction). -/
theorem udp_backoff_monotone_capped :
    (∀ n : Nat, delaySeq n ≤ delaySeq (n + 1)) ∧
    (∀ n : Nat, delaySeq n ≤ 60000) ∧
    (∀ (fuel : Nat) (u : UdpSink) (env : PollEnv) (obs : List Obs) (r : Async SocketAddr)
       (u' : UdpSink) (env' : PollEnv) (obs' : List Obs),
      poll_inner fuel u env obs = .ok r u' env' obs' →
      ∃ k, u'.backoff = advanceBackoff^[k] u.backoff) :=
  ⟨delaySeq_mono, delaySeq_le_cap, poll_inner_backoff_advances⟩

/-- Witness for C4: the delay facts at concrete indices and the no-reset fact
across a concrete completed poll. -/
theorem udp_backoff_monotone_capped_witness :
    (delaySeq 3 ≤ delaySeq 4) ∧ (delaySeq 9 ≤ 60000) ∧
    (∃ k, ({ host := "h", port := 1, state := State.ResolvingDns, backoff := fresh_backoff } : UdpSink).backoff
      = advanceBackoff^[k] (UdpSink.new ("h") 1).backoff) :=
  ⟨udp_backoff_monotone_capped.1 3, udp_backoff_monotone_capped.2.1 9,
   udp_backoff_monotone_capped.2.2 2 (UdpSink.new ("h") 1) { dns := [DnsPoll.notReady], delays := [] } [] .NotReady { host := "h", port := 1, state := State.ResolvingDns, backoff := fresh_backoff } { dns := [], delays := [] } [.debugResolvingDns] rfl⟩

theorem start_send_no_panic (fuel : Nat) (u : UdpSink) (line : Bytes) (env : PollEnv)
    (sendOk : Bool) (hd : ∀ d ∈ env.delays, d ≠ .errored) :
    start_send u line env fuel sendOk ≠ .panicked := by
  intro h
  unfold start_send at h
  cases hpi : poll_inner fuel u env [] with
  | ok r u₁ env₁ obs₁ =>
    rw [hpi] at h
    cases r with
    | Ready address => exact StartSendOutcome.noConfusion h
    | NotReady => exact StartSendOutcome.noConfusion h
  | panicked => exact poll_inner_no_panic fuel u env [] hd hpi
  | stuck =>
    rw [hpi] at h
    exact StartSendOutcome.noConfusion h

/-- C10: steady-state panic- and error-freedom of the UDP sink.  The backoff
iterator's `next` never returns `none`, so the `unwrap` in `next_delay` cannot
fail; the delay future built by `next_delay01` never yields an error; hence —
for every sink state and every oracle history in which the stored delay
futures behave like the ones `next_delay01` builds (no `errored` outcome) —
`poll_inner` never reaches an `unreachable!()` panic (it never returns `Err`),
and `start_send` never panics either: its `Err(_) => unreachable!()` arm is
dead code and every completed call returns `Ok`. -/
theorem udp_no_panic_total :
    (∀ b : ExponentialBackoff, b.next.isSome = true) ∧
    (∀ elapsed : Bool, next_delay01_poll elapsed ≠ .errored) ∧
    (∀ (fuel : Nat) (u : UdpSink) (env : PollEnv) (obs : List Obs),
      (∀ d ∈ env.delays, d ≠ .errored) → poll_inner fuel u env obs ≠ .panicked) ∧
    (∀ (fuel : Nat) (u : UdpSink) (line : Bytes) (env : PollEnv) (sendOk : Bool),
      (∀ d ∈ env.delays, d ≠ .errored) → start_send u line env fuel sendOk ≠ .panicked) :=
  ⟨backoff_next_isSome,
   fun elapsed => by cases elapsed <;> decide,
   poll_inner_no_panic,
   fun fuel u line env sendOk hd => start_send_no_panic fuel u line env sendOk hd⟩

/-- Witness for C10: the no-panic facts at a concrete sink whose delay oracle
is built from `next_delay01_poll`. -/
theorem udp_no_panic_total_witness :
    (fresh_backoff.next.isSome = true) ∧
    (next_delay01_poll true ≠ .errored) ∧
    (poll_inner 3 (UdpSink.new ("h") 1) { dns := [DnsPoll.err], delays := [next_delay01_poll true, next_delay01_poll false] } [] ≠ .panicked) ∧
    (start_send (UdpSink.new ("h") 1) [] { dns := [DnsPoll.err], delays := [next_delay01_poll true, next_delay01_poll false] } 3 true ≠ .panicked) :=
  ⟨udp_no_panic_total.1 fresh_backoff,
   udp_no_panic_total.2.1 true,
   udp_no_panic_total.2.2.1 3 _ _ [] (by decide),
   udp_no_panic_total.2.2.2 3 _ [] _ true (by decide)⟩

end VectorSpec
